import Mathlib

/-!
Verification of the jsonnet-language-server core (src/main.rs, src/utils.rs)
against its specification. The external collaborators (the jrsonnet parser and
evaluator, and the lsp_server transport crate) are modelled at their interface
boundary: the parser is an arbitrary function `jparse` returning either a
syntax tree or a structured error with a `LineCol` location, the evaluator an
arbitrary function whose result the code discards, and request-parameter
deserialization an abstract success/failure on the request payload.

Machine integers: the `line` and `character` fields of an LSP `Position` are
`u32` in the source; Rust release-build wrapping arithmetic is embedded
explicitly as arithmetic modulo 2^32 on `Nat`. Byte offsets and lengths are
`usize`, embedded as `Nat` (the one subtraction on them in the source is
guarded by the loop condition and cannot underflow).
-/

namespace JsonnetLS

/-- `jrsonnet_parser::peg::str::LineCol`: 1-based line and column plus a
0-based byte offset, as reported by the external PEG parser. -/
structure LineCol where
  line : Nat
  column : Nat
  offset : Nat
deriving DecidableEq, Repr

/-- `lsp_types::Position`: zero-based line and character, both `u32` in the
source; embedded as `Nat` with all arithmetic performed mod 2^32. -/
structure Position where
  line : Nat
  character : Nat
deriving DecidableEq, Repr

/-- `lsp_types::Range`. -/
structure Range where
  start : Position
  «end» : Position
deriving DecidableEq, Repr

/-- `lsp_types::DiagnosticSeverity` (only `Error` is used by the source). -/
inductive DiagnosticSeverity where
  | error
  | warning
  | information
  | hint
deriving DecidableEq, Repr

/-- `lsp_types::Diagnostic`, restricted to the fields the source sets
explicitly; the remaining fields are filled from `Diagnostic::default()`
(all `None`) and carry no information. -/
structure Diagnostic where
  range : Range
  severity : Option DiagnosticSeverity
  message : String
deriving DecidableEq, Repr

/-- The modulus of `u32` arithmetic. -/
def U32_MOD : Nat := 2 ^ 32

/-- Rust `x as u32 - 1` in a release build: truncate to `u32`, then
wrapping subtraction of one (underflow at 0 wraps to `2^32 - 1`; a debug
build would panic there instead of wrapping). -/
def u32_sub_one (x : Nat) : Nat := (x % U32_MOD + (U32_MOD - 1)) % U32_MOD

/-- Rust `x + 1` on a `u32` in a release build: wrapping addition of one. -/
def u32_add_one (x : Nat) : Nat := (x + 1) % U32_MOD

/-- Rust `str::len()`: the length in bytes of the UTF-8 encoding of the
text, here represented by its character list. -/
def utf8Len (s : List Char) : Nat := (s.map Char.utf8Size).sum

/-- Rust `code.split('\n')`: the list of maximal `'\n'`-free segments of the
text, in order; a trailing `'\r'` stays inside its segment, an empty text
yields one empty segment, and a trailing `'\n'` yields a final empty
segment. -/
def split : List Char → List (List Char)
  | [] => [[]]
  | c :: cs =>
      if c = '\n' then [] :: split cs
      else
        match split cs with
        | [] => [[c]]
        | l :: ls => (c :: l) :: ls

/-- The loop of `utils::location_to_position`: walk the lines produced by
`code.split('\n')`, and while the running offset does not fit within the
current line's byte length, consume that line plus its newline byte.
Returns the final value of the mutable `offset` variable (the subtraction
is guarded by the loop condition, so it never underflows). -/
def remOffset : List (List Char) → Nat → Nat
  | [], off => off
  | l :: ls, off =>
      if off ≤ utf8Len l then off
      else remOffset ls (off - (utf8Len l + 1))

/-- `utils::location_to_position`: split `code` on `'\n'`, reduce the byte
offset by whole lines, and build the `Position` from `line_col.line as u32 - 1`
and the remaining offset `as u32 - 1` (both wrapping, see `u32_sub_one`). -/
def location_to_position (code : String) (line_col : LineCol) : Position :=
  { line := u32_sub_one line_col.line,
    character := u32_sub_one (remOffset (split code.data) line_col.offset) }

/-- `jrsonnet_parser::parse`'s result type at its interface boundary:
either a syntax tree (of abstract type `α`) or an error carrying a `LineCol`
location (`err.location`) and its rendered text (`err.to_string()`). -/
inductive ParseResult (α : Type) where
  | ok (ast : α)
  | err (location : LineCol) (rendered : String)
deriving DecidableEq, Repr

/-- `utils::parse` (the diagnostics engine), parameterized by the external
parser `jparse` and evaluator `evaluate`. On parse success the evaluator is
invoked and its result `_result` is discarded; on parse failure exactly one
diagnostic is built: start from `location_to_position`, end on the same line
one character to the right (u32-wrapping `+ 1`), severity `Error`, message
the rendered error. -/
def parse {α β : Type} (jparse : String → ParseResult α) (evaluate : α → β)
    (text : String) : List Diagnostic :=
  match jparse text with
  | .ok ast =>
      let _result := evaluate ast
      []
  | .err location rendered =>
      let position_start := location_to_position text location
      let position_end : Position :=
        { line := position_start.line
          character := u32_add_one position_start.character }
      [{ range := { start := position_start, «end» := position_end }
         severity := some DiagnosticSeverity.error
         message := rendered }]

/-- Spec-side view of the line walk: the byte offset at which line `i` of the
split starts, every earlier line contributing its byte length plus one for
its `'\n'` delimiter. -/
def lineStart (ls : List (List Char)) (i : Nat) : Nat :=
  ((ls.take i).map (fun l => utf8Len l + 1)).sum

/-- The total byte length spanned by a list of lines when rejoined with
single-byte `'\n'` delimiters. -/
def totalLen (ls : List (List Char)) : Nat :=
  (ls.map utf8Len).sum + (ls.length - 1)

/-! ## Document store and notification handling (`src/main.rs`) -/

/-- One record of `App.files`: the latest parse outcome paired with the raw
text it was computed from (`(Result<LocExpr, ParseError>, String)`). -/
structure Doc (α : Type) where
  parsed : ParseResult α
  text : String
deriving DecidableEq, Repr

/-- `App.files`: the in-memory map from document URI to its record, embedded
as an association list whose insert replaces the value of an existing key
(the observable semantics of `HashMap::insert`). -/
abbrev Store (α : Type) := List (String × Doc α)

/-- `HashMap::insert`: replace the record of an existing key in place,
otherwise add the new entry. -/
def storeInsert {α : Type} (s : Store α) (uri : String) (d : Doc α) : Store α :=
  match s with
  | [] => [(uri, d)]
  | (k, v) :: rest =>
      if k = uri then (uri, d) :: rest else (k, v) :: storeInsert rest uri d

/-- `HashMap::get`: the record stored under `uri`, if any. -/
def storeGet {α : Type} (s : Store α) (uri : String) : Option (Doc α) :=
  match s with
  | [] => none
  | (k, v) :: rest => if k = uri then some v else storeGet rest uri

/-- An inbound notification, after the transport layer has decoded the
envelope: a document-open event carrying the full text, a document-change
event carrying the ordered `contentChanges` texts (full-document sync, so
each entry is a complete text), or any other notification method. -/
inductive NotificationIn where
  | didOpen (uri : String) (text : String)
  | didChange (uri : String) (contentChanges : List String)
  | otherMethod (method : String)
deriving DecidableEq, Repr

/-- One outbound `textDocument/publishDiagnostics` notification. -/
structure PublishDiagnostics where
  uri : String
  diagnostics : List Diagnostic
deriving DecidableEq, Repr

/-- `App::handle_notification` together with `App::send_diagnostics`: on
open, parse the text, publish the diagnostics computed by `utils::parse`
and insert the record; on change, do the same with the **last** content
change if one exists, and nothing otherwise; ignore every other method.
Returns the updated store and the list of published notifications, in
order. -/
def handle_notification {α β : Type} (jparse : String → ParseResult α)
    (evaluate : α → β) (files : Store α) (n : NotificationIn) :
    Store α × List PublishDiagnostics :=
  match n with
  | .didOpen uri text =>
      let parsed := jparse text
      (storeInsert files uri ⟨parsed, text⟩,
       [⟨uri, parse jparse evaluate text⟩])
  | .didChange uri contentChanges =>
      match contentChanges.getLast? with
      | some change =>
          let parsed := jparse change
          (storeInsert files uri ⟨parsed, change⟩,
           [⟨uri, parse jparse evaluate change⟩])
      | none => (files, [])
  | .otherMethod _ => (files, [])

/-- The store invariant of the spec: at most one record per identifier, and
every stored outcome is the parse of the stored text. -/
def StoreInv {α : Type} (jparse : String → ParseResult α) (s : Store α) : Prop :=
  (List.map Prod.fst s).Nodup ∧ ∀ p ∈ s, (p.2).parsed = jparse (p.2).text

instance {α : Type} [DecidableEq α] (jparse : String → ParseResult α)
    (s : Store α) : Decidable (StoreInv jparse s) := by
  unfold StoreInv; infer_instance

/-! ## Request routing (`src/main.rs`) -/

/-- The parameter payload of an inbound request as seen through
`serde_json`: for the formatting method either a well-formed
`DocumentFormattingParams` (of which only the text document URI is
consulted), or a payload on which deserialization fails. -/
inductive ReqParams where
  | formattingParams (uri : String)
  | malformed
deriving DecidableEq, Repr

/-- An inbound `lsp_server::Request`. -/
structure Request where
  id : Nat
  method : String
  params : ReqParams
deriving DecidableEq, Repr

/-- `lsp_types::TextEdit`. -/
structure TextEdit where
  range : Range
  newText : String
deriving DecidableEq, Repr

/-- An outbound `lsp_server::Response`: `Response::new_ok` with a list of
text edits, or `Response::new_err` with a JSON-RPC error code and message. -/
inductive ResponseOut where
  | ok (id : Nat) (edits : List TextEdit)
  | err (id : Nat) (code : Int) (message : String)
deriving DecidableEq, Repr

/-- `lsp_server::ErrorCode::MethodNotFound` (JSON-RPC -32601). -/
def methodNotFoundCode : Int := -32601

/-- `lsp_server::ErrorCode::InvalidParams` (JSON-RPC -32602), the code the
spec prescribes for parameter deserialization failures; the source never
produces it. -/
def invalidParamsCode : Int := -32602

/-- The LSP method name of the one implemented request kind. -/
def formattingMethod : String := "textDocument/formatting"

/-- The outcome of `lsp_server::Request::extract::<DocumentFormattingParams>`
as used by `cast::<Formatting>` in `handle_request`. The call site stores the
error value back as a `Request` (`Err(owned)` into `&mut Option<Request>`),
which pins the pre-0.6 `lsp_server` API `extract : Result<(RequestId, P),
Request>`: that `extract` returns `Err(self)` only on a method mismatch,
before touching the parameters, and when the method matches it unwraps the
`serde_json` deserialization — so a matching method with a malformed payload
panics instead of returning. -/
inductive CastOutcome where
  | success (id : Nat) (uri : String)
  | givenBack
  | panicked
deriving DecidableEq, Repr

/-- `cast::<Formatting>` on a request: the request id and the text document
URI when the method matches and the payload deserializes; the request given
back (`cast` restores it and yields `None`) on a method mismatch; a panic
when the method matches but deserialization fails. -/
def extractFormatting (req : Request) : CastOutcome :=
  if req.method = formattingMethod then
    match req.params with
    | .formattingParams uri => .success req.id uri
    | .malformed => .panicked
  else .givenBack

/-- The placeholder edit returned by the formatting stub: anchored at
(0,0)–(0,0) with replacement text `"TODO: test"`. -/
def todoEdit : TextEdit :=
  { range := { start := { line := 0, character := 0 }
               «end» := { line := 0, character := 0 } }
    newText := "TODO: test" }

/-- `App::handle_request`: try `cast::<Formatting>`; on success look the
document up and answer `Ok` with the placeholder edit when its outcome is
`Ok(ast)` and with an empty edit list otherwise (parse error or unknown
document); when the cast gives the request back, answer a `MethodNotFound`
error naming the unhandled method, with the request's own id. `none` is the
panic escaping from the cast: no response is sent — the panic hook logs it
and the process dies, per the fail-fast policy. -/
def handle_request {α : Type} (files : Store α) (req : Request) :
    Option ResponseOut :=
  match extractFormatting req with
  | .success id uri =>
      let changes : List TextEdit :=
        match storeGet files uri with
        | some d =>
            match d.parsed with
            | .ok _ => [todoEdit]
            | .err _ _ => []
        | none => []
      some (.ok id changes)
  | .givenBack =>
      some (.err req.id methodNotFoundCode ("Unhandled method " ++ req.method))
  | .panicked => none

/-! ## Lemmas about the position translator -/

theorem split_ne_nil (cs : List Char) : split cs ≠ [] := by
  induction cs with
  | nil => simp [split]
  | cons c cs ih =>
      by_cases hc : c = '\n'
      · simp [split, hc]
      · cases h : split cs with
        | nil => exact absurd h ih
        | cons l ls => simp [split, hc, h]

theorem totalLen_cons_of_ne_nil (l : List Char) (ls : List (List Char))
    (h : ls ≠ []) : totalLen (l :: ls) = utf8Len l + 1 + totalLen ls := by
  cases ls with
  | nil => exact absurd rfl h
  | cons l₂ ls₂ => simp [totalLen, List.length_cons]; omega

theorem lineStart_zero (ls : List (List Char)) : lineStart ls 0 = 0 := by
  simp [lineStart]

theorem lineStart_cons_succ (l : List Char) (ls : List (List Char)) (i : Nat) :
    lineStart (l :: ls) (i + 1) = utf8Len l + 1 + lineStart ls i := by
  simp [lineStart]

/-- Correctness of the `location_to_position` loop: on an in-range offset it
stops at the first line in which the remaining offset fits, and returns
that remaining intra-line offset. -/
theorem remOffset_spec (ls : List (List Char)) (off : Nat)
    (hne : ls ≠ []) (h : off ≤ totalLen ls) :
    ∃ i, i < ls.length ∧
      lineStart ls i ≤ off ∧
      off - lineStart ls i ≤ utf8Len (ls.getD i []) ∧
      (∀ j, j < i → lineStart ls j + utf8Len (ls.getD j []) < off) ∧
      remOffset ls off = off - lineStart ls i := by
  induction ls generalizing off with
  | nil => exact absurd rfl hne
  | cons l ls ih =>
      by_cases h1 : off ≤ utf8Len l
      · refine ⟨0, by simp, by simp [lineStart_zero], ?_, ?_, ?_⟩
        · simpa [lineStart_zero] using h1
        · intro j hj; omega
        · simp [remOffset, h1, lineStart_zero]
      · by_cases hlsne : ls = []
        · subst hlsne
          exact absurd (le_trans h (by simp [totalLen])) h1
        · have htot : totalLen (l :: ls) = utf8Len l + 1 + totalLen ls :=
            totalLen_cons_of_ne_nil l ls hlsne
          have hoff : utf8Len l + 1 ≤ off := by omega
          have h' : off - (utf8Len l + 1) ≤ totalLen ls := by omega
          obtain ⟨i, hi, hstart, hfit, hskip, hrem⟩ :=
            ih (off - (utf8Len l + 1)) hlsne h'
          refine ⟨i + 1, by simpa using Nat.succ_lt_succ hi, ?_, ?_, ?_, ?_⟩
          · rw [lineStart_cons_succ]; omega
          · rw [lineStart_cons_succ]
            have hget : (l :: ls).getD (i + 1) [] = ls.getD i [] := by
              simp [List.getD]
            rw [hget]; omega
          · intro j hj
            match j with
            | 0 =>
                rw [lineStart_zero]
                have hget : (l :: ls).getD 0 [] = l := by simp [List.getD]
                rw [hget]; omega
            | j + 1 =>
                have hj' : j < i := by omega
                have hlt := hskip j hj'
                rw [lineStart_cons_succ]
                have hget : (l :: ls).getD (j + 1) [] = ls.getD j [] := by
                  simp [List.getD]
                rw [hget]; omega
          · rw [lineStart_cons_succ]
            rw [remOffset, if_neg h1, hrem]
            omega

/-! ## Lemmas about the store -/

theorem storeInsert_mem {α : Type} (s : Store α) (uri : String) (d : Doc α)
    (p : String × Doc α) (hp : p ∈ storeInsert s uri d) :
    p = (uri, d) ∨ p ∈ s := by
  induction s with
  | nil => simpa [storeInsert] using hp
  | cons hd tl ih =>
      obtain ⟨k, v⟩ := hd
      by_cases hk : k = uri
      · rw [storeInsert, if_pos hk] at hp
        rcases List.mem_cons.mp hp with h | h
        · exact Or.inl h
        · exact Or.inr (List.mem_cons_of_mem _ h)
      · rw [storeInsert, if_neg hk] at hp
        rcases List.mem_cons.mp hp with h | h
        · exact Or.inr (h ▸ List.mem_cons_self _ _)
        · rcases ih h with h' | h'
          · exact Or.inl h'
          · exact Or.inr (List.mem_cons_of_mem _ h')

theorem storeInsert_keys_nodup {α : Type} (s : Store α) (uri : String)
    (d : Doc α) (h : (List.map Prod.fst s).Nodup) :
    (List.map Prod.fst (storeInsert s uri d)).Nodup := by
  induction s with
  | nil => simp [storeInsert]
  | cons hd tl ih =>
      obtain ⟨k, v⟩ := hd
      rw [List.map_cons, List.nodup_cons] at h
      by_cases hk : k = uri
      · rw [storeInsert, if_pos hk, List.map_cons, List.nodup_cons]
        exact ⟨hk ▸ h.1, h.2⟩
      · rw [storeInsert, if_neg hk, List.map_cons, List.nodup_cons]
        refine ⟨?_, ih h.2⟩
        intro hmem
        rcases List.mem_map.mp hmem with ⟨p, hp, hfst⟩
        rcases storeInsert_mem tl uri d p hp with h' | h'
        · rw [h'] at hfst
          simp at hfst
          exact hk hfst.symm
        · exact h.1 (List.mem_map.mpr ⟨p, h', hfst⟩)

/-! ## The claims -/

/-- C1: for every input text that the grammar rejects — i.e. whenever the
external parser returns an error with location `location` and rendered text
`rendered` — `utils::parse` returns exactly one diagnostic, whose range
start is `location_to_position text location`, whose end lies on the same
line one character to the right (`u32`-wrapping `+ 1` on the `character`
field, the source's own addition), whose severity is `Error`, and whose
message is the parser's rendered error text. -/
theorem parse_on_reject {α β : Type} (jparse : String → ParseResult α)
    (evaluate : α → β) (text : String) (location : LineCol) (rendered : String)
    (h : jparse text = .err location rendered) :
    ∃ d : Diagnostic,
      parse jparse evaluate text = [d] ∧
      d.range.start = location_to_position text location ∧
      d.range.«end».line = d.range.start.line ∧
      d.range.«end».character = u32_add_one d.range.start.character ∧
      d.severity = some DiagnosticSeverity.error ∧
      d.message = rendered := by
  have hp : parse jparse evaluate text =
      [{ range :=
           { start := location_to_position text location
             «end» :=
               { line := (location_to_position text location).line
                 character :=
                   u32_add_one (location_to_position text location).character } }
         severity := some DiagnosticSeverity.error
         message := rendered }] := by
    unfold parse
    rw [h]
  exact ⟨_, hp, rfl, rfl, rfl, rfl, rfl⟩

/-- Witness for C1 at a concrete parser and input: a parser rejecting `"!"`
at line 2, column 3, byte offset 7 of the text `"local\n x!y"`. -/
theorem parse_on_reject_witness :
    ∃ d : Diagnostic,
      parse (fun _ => ParseResult.err ⟨2, 3, 7⟩ "expected expression")
          (fun a : Nat => a) "local\n x!y" = [d] ∧
      d.range.start = location_to_position "local\n x!y" ⟨2, 3, 7⟩ ∧
      d.range.«end».line = d.range.start.line ∧
      d.range.«end».character = u32_add_one d.range.start.character ∧
      d.severity = some DiagnosticSeverity.error ∧
      d.message = "expected expression" :=
  parse_on_reject (fun _ => ParseResult.err ⟨2, 3, 7⟩ "expected expression")
    (fun a : Nat => a) "local\n x!y" ⟨2, 3, 7⟩ "expected expression" rfl

/-- C2: for every input text that the grammar accepts, `utils::parse`
returns the empty diagnostic list; the theorem quantifies over an arbitrary
evaluator `evaluate` (any function into any result type), so the conclusion
holds whatever the discarded evaluation result is — a failing evaluation
pass never produces a diagnostic. -/
theorem parse_on_accept {α β : Type} (jparse : String → ParseResult α)
    (evaluate : α → β) (text : String) (ast : α)
    (h : jparse text = .ok ast) :
    parse jparse evaluate text = [] := by
  unfold parse
  rw [h]

/-- Witness for C2 at a concrete parser, a concrete (failing) evaluator and
input: the evaluator returns an error value, yet no diagnostic appears. -/
theorem parse_on_accept_witness :
    parse (fun s => ParseResult.ok s.length)
      (fun _ : Nat => (Except.error "evaluation failed" : Except String Nat))
      "{ a: 1, b: 2 }" = [] :=
  parse_on_accept (fun s => ParseResult.ok s.length)
    (fun _ : Nat => (Except.error "evaluation failed" : Except String Nat))
    "{ a: 1, b: 2 }" 14 rfl

/-- C3 (code bug): the claim says the translator never fails and its
subtractions do not underflow at boundary offsets such as offset 0. The
code, however, computes `character` as `offset as u32 - 1` with no guard:
at the in-range boundary offset 0 (an error at line 1, column 1, as the
grammar reports for a text rejected at its first byte) the subtraction
underflows, wrapping to `2^32 - 1 = 4294967295` in a release build (a debug
build panics) — not the saturated value 0 and not an end-of-text position. -/
theorem location_to_position_underflow :
    location_to_position "?" ⟨1, 1, 0⟩ =
      { line := 0, character := 4294967295 } ∧
    (4294967295 : Nat) ≠ 0 := by
  exact ⟨by decide, by decide⟩

/-- C9: for every text and every in-range byte offset (at most the total
byte length spanned by the `'\n'`-split lines), the translator walks the
lines accumulating consumed length (each skipped line's byte length plus
one for its delimiter — a trailing `'\r'` is counted inside its line's
length) until the remaining offset fits within the current line's length:
there is a line index `i` such that every earlier line was overrun, the
remaining offset fits in line `i`, and the returned position is the
reported 1-based line minus one and the remaining intra-line offset minus
one, both minus-ones applied unconditionally (as the source's wrapping
`u32` subtraction). -/
theorem location_to_position_walk (code : String) (line_col : LineCol)
    (h : line_col.offset ≤ totalLen (split code.data)) :
    ∃ i, i < (split code.data).length ∧
      lineStart (split code.data) i ≤ line_col.offset ∧
      line_col.offset - lineStart (split code.data) i ≤
        utf8Len ((split code.data).getD i []) ∧
      (∀ j, j < i →
        lineStart (split code.data) j + utf8Len ((split code.data).getD j [])
          < line_col.offset) ∧
      location_to_position code line_col =
        { line := u32_sub_one line_col.line,
          character :=
            u32_sub_one (line_col.offset - lineStart (split code.data) i) } := by
  obtain ⟨i, hi, hstart, hfit, hskip, hrem⟩ :=
    remOffset_spec (split code.data) line_col.offset (split_ne_nil code.data) h
  refine ⟨i, hi, hstart, hfit, hskip, ?_⟩
  unfold location_to_position
  rw [hrem]

/-- Witness for C9 on the text `"ab\r\ncd"` (a `\r\n` line ending, so the
`'\r'` counts one byte inside the first line) at byte offset 5, the `'d'`
on the second line. -/
theorem location_to_position_walk_witness :
    ∃ i, i < (split (String.data "ab\r\ncd")).length ∧
      lineStart (split (String.data "ab\r\ncd")) i ≤ 5 ∧
      5 - lineStart (split (String.data "ab\r\ncd")) i ≤
        utf8Len ((split (String.data "ab\r\ncd")).getD i []) ∧
      (∀ j, j < i →
        lineStart (split (String.data "ab\r\ncd")) j +
          utf8Len ((split (String.data "ab\r\ncd")).getD j []) < 5) ∧
      location_to_position "ab\r\ncd" ⟨2, 2, 5⟩ =
        { line := u32_sub_one 2,
          character :=
            u32_sub_one (5 - lineStart (split (String.data "ab\r\ncd")) i) } :=
  location_to_position_walk "ab\r\ncd" ⟨2, 2, 5⟩ (by decide)

/-- C4: every open and change event preserves the Document Store invariant:
at most one record per document identifier (the key list stays duplicate
free), and every stored parse outcome is the parse of the stored text — no
stale combination survives, because both events insert the freshly parsed
outcome together with the very text it was computed from. -/
theorem handle_notification_preserves_StoreInv {α β : Type}
    (jparse : String → ParseResult α) (evaluate : α → β)
    (files : Store α) (n : NotificationIn) (h : StoreInv jparse files) :
    StoreInv jparse (handle_notification jparse evaluate files n).1 := by
  have hins : ∀ uri text,
      StoreInv jparse (storeInsert files uri ⟨jparse text, text⟩) := by
    intro uri text
    refine ⟨storeInsert_keys_nodup files uri _ h.1, ?_⟩
    intro p hp
    rcases storeInsert_mem files uri _ p hp with h' | h'
    · rw [h']
    · exact h.2 p h'
  cases n with
  | didOpen uri text => exact hins uri text
  | didChange uri contentChanges =>
      cases hc : contentChanges.getLast? with
      | some change =>
          simpa [handle_notification, hc] using hins uri change
      | none => simpa [handle_notification, hc] using h
  | otherMethod m => exact h

/-- Witness for C4: a concrete store satisfying the invariant for the
parser mapping each text to its length, after a change event. -/
theorem handle_notification_preserves_StoreInv_witness :
    StoreInv (fun s => ParseResult.ok s.length)
      [("file:///a.jsonnet", (⟨ParseResult.ok 1, "x"⟩ : Doc Nat))] ∧
    StoreInv (fun s => ParseResult.ok s.length)
      (handle_notification (fun s => ParseResult.ok s.length) (fun a : Nat => a)
        [("file:///a.jsonnet", (⟨ParseResult.ok 1, "x"⟩ : Doc Nat))]
        (.didChange "file:///b.jsonnet" ["{}", "{ }"])).1 :=
  ⟨by decide,
   handle_notification_preserves_StoreInv (fun s => ParseResult.ok s.length)
     (fun a : Nat => a)
     [("file:///a.jsonnet", (⟨ParseResult.ok 1, "x"⟩ : Doc Nat))]
     (.didChange "file:///b.jsonnet" ["{}", "{ }"]) (by decide)⟩

/-- C5: a change notification with a non-empty content-change list applies
only its last entry: the store update, the parse outcome and the single
published diagnostics notification are all computed from the last entry's
text, and the whole event is indistinguishable from one carrying the last
entry alone. -/
theorem didChange_applies_last {α β : Type} (jparse : String → ParseResult α)
    (evaluate : α → β) (files : Store α) (uri : String)
    (contentChanges : List String) (h : contentChanges ≠ []) :
    handle_notification jparse evaluate files (.didChange uri contentChanges) =
      (storeInsert files uri
         ⟨jparse (contentChanges.getLast h), contentChanges.getLast h⟩,
       [⟨uri, parse jparse evaluate (contentChanges.getLast h)⟩]) ∧
    handle_notification jparse evaluate files (.didChange uri contentChanges) =
      handle_notification jparse evaluate files
        (.didChange uri [contentChanges.getLast h]) := by
  have hl : contentChanges.getLast? = some (contentChanges.getLast h) :=
    List.getLast?_eq_getLast_of_ne_nil h
  constructor
  · simp [handle_notification, hl]
  · simp [handle_notification, hl]

/-- Witness for C5 with three content changes: only `"c"` matters. -/
theorem didChange_applies_last_witness :
    handle_notification (fun s => ParseResult.ok s.length) (fun a : Nat => a)
        [] (.didChange "file:///a.jsonnet" ["a", "b", "c"]) =
      (storeInsert [] "file:///a.jsonnet"
         ⟨(fun s : String => ParseResult.ok s.length)
            (["a", "b", "c"].getLast (by decide)),
          ["a", "b", "c"].getLast (by decide)⟩,
       [⟨"file:///a.jsonnet",
         parse (fun s => ParseResult.ok s.length) (fun a : Nat => a)
           (["a", "b", "c"].getLast (by decide))⟩]) ∧
    handle_notification (fun s => ParseResult.ok s.length) (fun a : Nat => a)
        [] (.didChange "file:///a.jsonnet" ["a", "b", "c"]) =
      handle_notification (fun s => ParseResult.ok s.length) (fun a : Nat => a)
        [] (.didChange "file:///a.jsonnet"
             [["a", "b", "c"].getLast (by decide)]) :=
  didChange_applies_last (fun s => ParseResult.ok s.length) (fun a : Nat => a)
    [] "file:///a.jsonnet" ["a", "b", "c"] (by decide)

/-- C10: a change notification whose content-change list is empty is a
complete no-op: the store is returned unchanged and no publish-diagnostics
notification is produced. -/
theorem didChange_empty_noop {α β : Type} (jparse : String → ParseResult α)
    (evaluate : α → β) (files : Store α) (uri : String) :
    handle_notification jparse evaluate files (.didChange uri []) =
      (files, []) := rfl

/-- C6: a formatting request for a document whose stored outcome is a
successful parse is answered `Ok` with exactly the placeholder edit at
(0,0)–(0,0); for a stored syntax error, or for an identifier that was never
opened, it is answered `Ok` with an empty edit list — in every case a
success response, never an error. -/
theorem formatting_response {α : Type} (files : Store α) (id : Nat)
    (uri : String) :
    (∀ (ast : α) (text : String),
      storeGet files uri = some ⟨ParseResult.ok ast, text⟩ →
      handle_request files ⟨id, formattingMethod, .formattingParams uri⟩ =
        some (.ok id [todoEdit])) ∧
    (∀ (location : LineCol) (rendered text : String),
      storeGet files uri = some ⟨ParseResult.err location rendered, text⟩ →
      handle_request files ⟨id, formattingMethod, .formattingParams uri⟩ =
        some (.ok id [])) ∧
    (storeGet files uri = none →
      handle_request files ⟨id, formattingMethod, .formattingParams uri⟩ =
        some (.ok id [])) := by
  refine ⟨?_, ?_, ?_⟩
  · intro ast text hget
    simp [handle_request, extractFormatting, hget]
  · intro location rendered text hget
    simp [handle_request, extractFormatting, hget]
  · intro hget
    simp [handle_request, extractFormatting, hget]

/-- Witness for C6, covering all three cases on a concrete two-document
store: a parsed document, a document with a syntax error, and an unknown
identifier. -/
theorem formatting_response_witness :
    handle_request
        [("file:///ok.jsonnet", (⟨ParseResult.ok 1, "x"⟩ : Doc Nat)),
         ("file:///bad.jsonnet", ⟨ParseResult.err ⟨1, 1, 0⟩ "expected", "?"⟩)]
        ⟨1, formattingMethod, .formattingParams "file:///ok.jsonnet"⟩ =
      some (.ok 1 [todoEdit]) ∧
    handle_request
        [("file:///ok.jsonnet", (⟨ParseResult.ok 1, "x"⟩ : Doc Nat)),
         ("file:///bad.jsonnet", ⟨ParseResult.err ⟨1, 1, 0⟩ "expected", "?"⟩)]
        ⟨2, formattingMethod, .formattingParams "file:///bad.jsonnet"⟩ =
      some (.ok 2 []) ∧
    handle_request
        [("file:///ok.jsonnet", (⟨ParseResult.ok 1, "x"⟩ : Doc Nat)),
         ("file:///bad.jsonnet", ⟨ParseResult.err ⟨1, 1, 0⟩ "expected", "?"⟩)]
        ⟨3, formattingMethod, .formattingParams "file:///unknown.jsonnet"⟩ =
      some (.ok 3 []) :=
  ⟨(formatting_response _ 1 "file:///ok.jsonnet").1 1 "x" (by decide),
   (formatting_response _ 2 "file:///bad.jsonnet").2.1 ⟨1, 1, 0⟩ "expected" "?"
     (by decide),
   (formatting_response _ 3 "file:///unknown.jsonnet").2.2 (by decide)⟩

/-- C7: every request whose method is not the formatting method is answered
with an error response carrying the request's own id, the MethodNotFound
code, and a message naming the unhandled method. -/
theorem unhandled_method_response {α : Type} (files : Store α) (req : Request)
    (h : req.method ≠ formattingMethod) :
    handle_request files req =
      some (.err req.id methodNotFoundCode
        ("Unhandled method " ++ req.method)) := by
  unfold handle_request extractFormatting
  rw [if_neg h]

/-- Witness for C7 on a declared-but-unimplemented method. -/
theorem unhandled_method_response_witness :
    handle_request ([] : Store Nat)
        ⟨5, "textDocument/completion", .malformed⟩ =
      some (.err 5 methodNotFoundCode
        ("Unhandled method " ++ "textDocument/completion")) :=
  unhandled_method_response ([] : Store Nat)
    ⟨5, "textDocument/completion", .malformed⟩ (by decide)

/-- C8 (code bug): the claim says a formatting request whose parameter
payload fails to deserialize is surfaced as an "invalid parameters" error
response tied to the request id, without crashing the session. The code
does neither: `cast`'s call-site type (`Err` carried back as a `Request`)
pins the pre-0.6 `lsp_server::Request::extract`, which unwraps the
deserialization when the method matches — so the router panics and no
response at all is produced for the request (the panic hook logs it and the
process dies, fail-fast); in particular no response with
`invalidParamsCode` (or any other code) is ever sent. -/
theorem formatting_malformed_params_panics :
    ∀ files : Store Nat,
      handle_request files ⟨7, formattingMethod, .malformed⟩ = none := by
  intro files
  unfold handle_request extractFormatting
  simp

end JsonnetLS
